import Mathlib

/-!
Verification of the incremental compliance pipeline of `claude-lint`.

Shallow embedding of the core modules:
* `cache.py`    — `CacheEntry`, `Cache`, `load_cache`, `save_cache`
* `progress.py` — `ProgressState`, `ProgressTracker.update`,
                  `get_remaining_batch_indices`, `get_progress_percentage`
* `processor.py` — `BatchProcessor.create_batches`
* `retry.py`    — `retry_with_backoff`
* the orchestrator's `filter_cached_files` (modelled from the spec; the
  orchestrator module itself is only visible through its tests here).

Python `dict`s (which preserve insertion order and have unique keys) are
modelled as association lists in insertion order; JSON values produced by
`json.load` are modelled by the inductive `Json`; Python floats used for
delays and percentages are modelled by `ℚ`; a Python function call that can
raise is modelled with `Except String`.
-/

namespace ClaudeLint

/-- A JSON value as produced by Python's `json.load`. Objects keep the key
order of the file; `json.load` never produces duplicate keys. -/
inductive Json where
  | null
  | bool (b : Bool)
  | str (s : String)
  | num (n : Int)
  | arr (elems : List Json)
  | obj (fields : List (String × Json))

/-- `cache.py` — dataclass `CacheEntry`. Field types follow the dataclass
annotations (`file_hash: str`, `claude_md_hash: str`, `violations: list[str]`,
`timestamp: int`). -/
structure CacheEntry where
  file_hash : String
  claude_md_hash : String
  violations : List String
  timestamp : Int
  deriving DecidableEq, Repr

/-- `cache.py` — dataclass `Cache`: `claude_md_hash` plus the mapping from
relative file path to `CacheEntry`, modelled as an insertion-ordered
association list. -/
structure Cache where
  claude_md_hash : String
  entries : List (String × CacheEntry)
  deriving DecidableEq, Repr

/-- A persisted file as seen by `load_cache`: absent, present but not valid
JSON text (so `json.load` raises `JSONDecodeError`), or present with a parsed
JSON value. -/
inductive FsFile where
  | absent
  | garbage
  | json (j : Json)

/-- The keyword arguments accepted by the `CacheEntry` dataclass constructor;
`CacheEntry(**entry_data)` raises `TypeError` on any other key. -/
def entryKeys : List String := ["file_hash", "claude_md_hash", "violations", "timestamp"]

/-- Decode a JSON array's elements at the annotated type `list[str]`. -/
def decodeStringList : List Json → Option (List String)
  | [] => some []
  | Json.str s :: rest => (decodeStringList rest).map (fun l => s :: l)
  | _ => none

/-- `cache.py:41` — `CacheEntry(**entry_data)`: `entry_data` must be a mapping
whose key set is exactly the dataclass fields, decoded at the annotated
field types. -/
def parseCacheEntry (j : Json) : Except String CacheEntry :=
  match j with
  | Json.obj fields =>
    if fields.all (fun kv => entryKeys.contains kv.1) then
      match List.lookup "file_hash" fields, List.lookup "claude_md_hash" fields,
            List.lookup "violations" fields, List.lookup "timestamp" fields with
      | some (Json.str fh), some (Json.str ch), some (Json.arr vs), some (Json.num ts) =>
        match decodeStringList vs with
        | some viols => Except.ok (CacheEntry.mk fh ch viols ts)
        | none => Except.error "TypeError: violations is not a list of strings"
      | _, _, _, _ => Except.error "TypeError: CacheEntry missing field"
    else
      Except.error "TypeError: CacheEntry got an unexpected keyword argument"
  | _ => Except.error "TypeError: entry data is not a mapping"

/-- `cache.py:39-41` — the loop building `entries`; the run fails at the
first malformed entry. -/
def parseEntries : List (String × Json) → Except String (List (String × CacheEntry))
  | [] => Except.ok []
  | (k, v) :: rest =>
    match parseCacheEntry v, parseEntries rest with
    | Except.ok e, Except.ok es => Except.ok ((k, e) :: es)
    | Except.error msg, _ => Except.error msg
    | Except.ok _, Except.error msg => Except.error msg

/-- `cache.py:24-46` — `load_cache`: absent path yields the empty cache;
present text that is not JSON raises `JSONDecodeError`; otherwise the data is
read with `data.get`, defaulting `entries` to an empty mapping and
`claudeMdHash` to the empty string, and each entry is rebuilt with
`CacheEntry(**entry_data)`. -/
def load_cache : FsFile → Except String Cache
  | FsFile.absent => Except.ok (Cache.mk "" [])
  | FsFile.garbage => Except.error "json.decoder.JSONDecodeError: Expecting value"
  | FsFile.json j =>
    match j with
    | Json.obj fields =>
      match (List.lookup "entries" fields).getD (Json.obj []) with
      | Json.obj entryFields =>
        match parseEntries entryFields with
        | Except.ok es =>
          match (List.lookup "claudeMdHash" fields).getD (Json.str "") with
          | Json.str ch => Except.ok (Cache.mk ch es)
          | _ => Except.error "TypeError: claudeMdHash is not a string"
        | Except.error msg => Except.error msg
      | _ => Except.error "AttributeError: entries is not a mapping"
    | _ => Except.error "AttributeError: cache data is not a mapping"

/-- `cache.py:58` — `asdict(entry)`: the dataclass fields in declaration
order. -/
def cacheEntryToJson (e : CacheEntry) : Json :=
  Json.obj [("file_hash", Json.str e.file_hash),
            ("claude_md_hash", Json.str e.claude_md_hash),
            ("violations", Json.arr (e.violations.map Json.str)),
            ("timestamp", Json.num e.timestamp)]

/-- `cache.py:49-66` — `save_cache`: the JSON document written to disk. -/
def save_cache (c : Cache) : Json :=
  Json.obj [("claudeMdHash", Json.str c.claude_md_hash),
            ("entries", Json.obj (c.entries.map (fun kv => (kv.1, cacheEntryToJson kv.2))))]

/-- Modelled from the spec: a candidate file as seen by the orchestrator's
`partition` (`filter_cached_files`), identified by its path relative to the
project root together with the fingerprint of its current content. The
orchestrator module is not part of the sources here; only its tests are. -/
structure CandidateFile where
  rel_path : String
  fingerprint : String
  deriving DecidableEq, Repr

/-- Modelled from the spec: a cache entry is valid for a candidate file and
the current guidelines hash iff an entry exists at the file's relative path
and `entry.guidelines_hash == currentGuidelinesHash` and
`entry.file_hash == currentFingerprint` (spec section 4.2; the guidelines
hash field is named `claude_md_hash` in `cache.py`). -/
def cache_entry_valid (cache : Cache) (current_md_hash : String) (f : CandidateFile) : Bool :=
  match List.lookup f.rel_path cache.entries with
  | some entry => (entry.claude_md_hash == current_md_hash) && (entry.file_hash == f.fingerprint)
  | none => false

/-- Modelled from the spec: `filter_cached_files` returns the stale files —
the candidates with no valid cache entry — in input order (spec section 4.2:
"Order of the stale list matches the input order"; the orchestrator module
is missing from the sources, its tests call
`filter_cached_files(files, cache, project_root, current_hash)`). -/
def filter_cached_files (files : List CandidateFile) (cache : Cache)
    (current_md_hash : String) : List CandidateFile :=
  files.filter (fun f => ! cache_entry_valid cache current_md_hash f)

/-- `progress.py` — dataclass `ProgressState`. The per-file result records
(`list[dict[str, Any]]`) are opaque to the tracker and modelled as JSON
values. -/
structure ProgressState where
  total_batches : Nat
  completed_batch_indices : List Nat
  results : List Json

/-- `progress.py:19-28` — `ProgressTracker.__init__`: fresh state, the
dataclass default factories give empty lists. -/
def create_progress_state (total_batches : Nat) : ProgressState :=
  ProgressState.mk total_batches [] []

/-- `progress.py:35-45` — `ProgressTracker.update`: the index is appended
only when not already present; `results` is extended unconditionally. -/
def update (s : ProgressState) (batch_index : Nat) (results : List Json) : ProgressState :=
  ProgressState.mk s.total_batches
    (if batch_index ∈ s.completed_batch_indices then s.completed_batch_indices
     else s.completed_batch_indices ++ [batch_index])
    (s.results ++ results)

/-- `progress.py:70-78` — `ProgressTracker.get_remaining_batch_indices`:
`sorted(set(range(total_batches)) - set(completed))`. `range` is
duplicate-free and ascending, so the sorted set difference equals the
order-preserving filter of `range`. -/
def get_remaining_batch_indices (s : ProgressState) : List Nat :=
  (List.range s.total_batches).filter (fun i => ! s.completed_batch_indices.contains i)

/-- `progress.py:88-94` — `ProgressTracker.get_progress_percentage`:
`(completed_batches / total_batches) * 100` with no guard; Python's `/`
raises `ZeroDivisionError` when the denominator is zero, made explicit by
the `Except`. -/
def get_progress_percentage (s : ProgressState) : Except String ℚ :=
  if s.total_batches = 0 then Except.error "ZeroDivisionError: division by zero"
  else Except.ok (((s.completed_batch_indices.length : ℚ) / (s.total_batches : ℚ)) * 100)

/-- `progress.py:80-86` — `ProgressTracker.is_complete`. -/
def is_complete (s : ProgressState) : Bool :=
  s.completed_batch_indices.length == s.total_batches

/-- `processor.py:68-80` — `BatchProcessor.create_batches`:
`for i in range(0, len(items), batch_size): batches.append(items[i:i+batch_size])`.
A step of zero would make `range` raise `ValueError`; validation rejects
non-positive batch sizes before this point, so that branch yields nothing. -/
def create_batches (batch_size : Nat) : List α → List (List α)
  | [] => []
  | x :: xs =>
    if h : batch_size = 0 then []
    else ((x :: xs).take batch_size) :: create_batches batch_size ((x :: xs).drop batch_size)
termination_by l => l.length
decreasing_by
  simp only [List.length_drop, List.length_cons]
  omega

/-- The batch lengths produced by `create_batches` as a function of the input
length alone. -/
def batch_sizes (batch_size : Nat) : Nat → List Nat
  | 0 => []
  | m + 1 =>
    if h : batch_size = 0 then []
    else min batch_size (m + 1) :: batch_sizes batch_size (m + 1 - batch_size)
termination_by m => m
decreasing_by omega

/-- `retry.py` — what one invocation of the wrapped zero-argument operation
does: return a value, raise a retryable `Exception`, or raise one of the
immediate-cancellation signals `KeyboardInterrupt` / `SystemExit`. The
operation is modelled as a function of the attempt number so that successive
invocations may behave differently. -/
inductive Outcome (α : Type) where
  | ok (v : α)
  | err (e : String)
  | cancel (e : String)

/-- How a call to `retry_with_backoff` ends: a returned value, a re-raised
`Exception`, or a propagated cancellation signal. -/
inductive RetryResult (α : Type) where
  | ok (v : α)
  | raised (e : String)
  | cancelled (e : String)
  deriving DecidableEq, Repr

/-- Observable behaviour of one `retry_with_backoff` call: its result, how
many times the operation was invoked, and the jittered delays slept. -/
structure RetryTrace (α : Type) where
  result : RetryResult α
  calls : Nat
  sleeps : List ℚ
  deriving DecidableEq, Repr

/-- `retry.py:48-79` — the `for attempt in range(max_retries)` loop, by the
number of attempts remaining. On `Exception` with attempts left the loop
sleeps `delay * jitter` and multiplies `delay` by the backoff factor; on the
last attempt it re-raises (the `last_exception` variable always holds the
exception of the final failed attempt, so re-raising directly is
equivalent). The jitter factor `RETRY_JITTER_MIN + random() *
(RETRY_JITTER_MAX - RETRY_JITTER_MIN)` is modelled as an oracle stream
indexed by attempt. The `remaining = 0` base case is reached only when
`max_retries = 0`, where the loop body never runs and the function raises
`RuntimeError`. -/
def retry_loop (func : Nat → Outcome α) (jitter : Nat → ℚ) (backoff_factor : ℚ) :
    Nat → Nat → ℚ → RetryTrace α
  | 0, _, _ =>
    RetryTrace.mk (RetryResult.raised "RuntimeError: retry_with_backoff: no retries executed") 0 []
  | remaining + 1, attempt, delay =>
    match func attempt with
    | Outcome.ok v => RetryTrace.mk (RetryResult.ok v) 1 []
    | Outcome.cancel e => RetryTrace.mk (RetryResult.cancelled e) 1 []
    | Outcome.err e =>
      if remaining = 0 then RetryTrace.mk (RetryResult.raised e) 1 []
      else
        let rest := retry_loop func jitter backoff_factor remaining (attempt + 1)
          (delay * backoff_factor)
        RetryTrace.mk rest.result (rest.calls + 1) ((delay * jitter attempt) :: rest.sleeps)

/-- `retry.py:20-79` — `retry_with_backoff(func, max_retries, initial_delay,
backoff_factor)`. -/
def retry_with_backoff (func : Nat → Outcome α) (jitter : Nat → ℚ) (max_retries : Nat)
    (initial_delay backoff_factor : ℚ) : RetryTrace α :=
  retry_loop func jitter backoff_factor max_retries 0 initial_delay

/-- A present cache file whose single entry lacks the `claude_md_hash`,
`violations` and `timestamp` fields, so `CacheEntry(**entry_data)` raises
`TypeError`. -/
def malformedCacheJson : Json :=
  Json.obj [("claudeMdHash", Json.str "h"),
            ("entries", Json.obj [("a.py", Json.obj [("file_hash", Json.str "x")])])]

/-- Claim C8: `load_cache` on an absent path returns the empty cache
(empty guidelines hash, no entries) and never raises; on a present but
structurally malformed file — unparseable text, or JSON whose entry lacks
required `CacheEntry` fields — it raises rather than silently returning an
empty cache. -/
theorem load_cache_absent_malformed_spec :
    load_cache FsFile.absent = Except.ok (Cache.mk "" [])
    ∧ load_cache FsFile.garbage
        = Except.error "json.decoder.JSONDecodeError: Expecting value"
    ∧ load_cache (FsFile.json malformedCacheJson)
        = Except.error "TypeError: CacheEntry missing field" :=
  ⟨rfl, rfl, rfl⟩

theorem decodeStringList_map (l : List String) :
    decodeStringList (l.map Json.str) = some l := by
  induction l with
  | nil => rfl
  | cons s rest ih => simp [decodeStringList, ih]

theorem parseCacheEntry_toJson (e : CacheEntry) :
    parseCacheEntry (cacheEntryToJson e) = Except.ok e := by
  simp [parseCacheEntry, cacheEntryToJson, entryKeys, List.lookup, decodeStringList_map]

theorem parseEntries_map (es : List (String × CacheEntry)) :
    parseEntries (es.map (fun kv => (kv.1, cacheEntryToJson kv.2))) = Except.ok es := by
  induction es with
  | nil => rfl
  | cons kv rest ih => simp [parseEntries, parseCacheEntry_toJson, ih]

/-- Claim C10: cache persistence round-trips — loading the JSON document
written by `save_cache` returns a cache equal to the original, for every
cache value. -/
theorem cache_round_trip_spec (c : Cache) :
    load_cache (FsFile.json (save_cache c)) = Except.ok c := by
  simp [load_cache, save_cache, List.lookup, parseEntries_map]

/-- Claim C1 (spec-modelled; the orchestrator module is absent from the
sources): a candidate is cached-valid iff the cache has an entry at its
relative path whose guidelines hash equals the current guidelines hash and
whose file hash equals the file's current fingerprint; `filter_cached_files`
returns exactly the other files, as an order-preserving sublist of the
input. Changing one byte of a file's content changes its fingerprint, and
changing the guidelines document changes the current hash, so either breaks
the equalities and re-queues the file. -/
theorem filter_cached_files_spec (files : List CandidateFile) (cache : Cache) (gh : String) :
    (∀ f, cache_entry_valid cache gh f = true ↔
      ∃ e, List.lookup f.rel_path cache.entries = some e
        ∧ e.claude_md_hash = gh ∧ e.file_hash = f.fingerprint)
    ∧ (∀ f, f ∈ filter_cached_files files cache gh ↔
        f ∈ files ∧
          ¬ ∃ e, List.lookup f.rel_path cache.entries = some e
            ∧ e.claude_md_hash = gh ∧ e.file_hash = f.fingerprint)
    ∧ (filter_cached_files files cache gh).Sublist files := by
  have hvalid : ∀ f, cache_entry_valid cache gh f = true ↔
      ∃ e, List.lookup f.rel_path cache.entries = some e
        ∧ e.claude_md_hash = gh ∧ e.file_hash = f.fingerprint := by
    intro f
    unfold cache_entry_valid
    cases hlook : List.lookup f.rel_path cache.entries with
    | none => simp
    | some entry => simp
  refine ⟨hvalid, fun f => ?_, List.filter_sublist _⟩
  rw [filter_cached_files, List.mem_filter]
  constructor
  · rintro ⟨hf, hb⟩
    refine ⟨hf, fun hex => ?_⟩
    rw [← hvalid f] at hex
    simp [hex] at hb
  · rintro ⟨hf, hex⟩
    refine ⟨hf, ?_⟩
    rw [← hvalid f] at hex
    simp [Bool.not_eq_true] at hex ⊢
    exact hex

/-- Claim C2, counterexample: `update` is not idempotent — repeating
`update 0 [r]` on a fresh one-batch state appends the result record a second
time, so the state changes. -/
theorem update_idempotent_cex :
    update (update (create_progress_state 1) 0 [Json.null]) 0 [Json.null]
      ≠ update (create_progress_state 1) 0 [Json.null] := by
  intro hcontra
  have hlen := congrArg (fun s => s.results.length) hcontra
  simp [update, create_progress_state] at hlen

/-- Claim C2, amended: repeating `update i r` leaves the completed index set
unchanged (the index-add is idempotent, no duplicate index), but the results
list is extended by `r` again — full-state idempotence fails. -/
theorem update_reapply_spec (s : ProgressState) (i : Nat) (r : List Json) :
    (update (update s i r) i r).completed_batch_indices
      = (update s i r).completed_batch_indices
    ∧ (update (update s i r) i r).results = (update s i r).results ++ r := by
  refine ⟨?_, rfl⟩
  by_cases hm : i ∈ s.completed_batch_indices <;> simp [update, hm]

/-- Claim C3, counterexample: with `total_batches = 0` the percentage is not
100 — the unguarded division raises `ZeroDivisionError`. -/
theorem percentage_zero_cex :
    get_progress_percentage (create_progress_state 0) ≠ Except.ok 100 := by
  simp [get_progress_percentage, create_progress_state]

/-- Claim C3, amended: for `total_batches ≠ 0` the percentage is
`100 * completed / total_batches`; for `total_batches = 0` the code raises
`ZeroDivisionError` instead of returning 100. -/
theorem get_progress_percentage_spec (s : ProgressState) :
    (s.total_batches ≠ 0 →
      get_progress_percentage s
        = Except.ok (100 * (s.completed_batch_indices.length : ℚ) / (s.total_batches : ℚ)))
    ∧ (s.total_batches = 0 →
      get_progress_percentage s = Except.error "ZeroDivisionError: division by zero") := by
  constructor
  · intro h
    rw [get_progress_percentage, if_neg h]
    congr 1
    ring
  · intro h
    rw [get_progress_percentage, if_pos h]

theorem get_progress_percentage_spec_witness :
    (ProgressState.mk 4 [0, 1] []).total_batches ≠ 0
    ∧ get_progress_percentage (ProgressState.mk 4 [0, 1] []) = Except.ok 50 := by
  refine ⟨by decide, ?_⟩
  rw [(get_progress_percentage_spec (ProgressState.mk 4 [0, 1] [])).1 (by decide)]
  norm_num

/-- Claim C6, counterexample: `update` performs no range check, so the state
reached from a fresh one-batch ledger by `update 5 []` carries the completed
index 5, outside `[0, total_batches)`. -/
theorem progress_range_invariant_cex :
    ∃ i ∈ (update (create_progress_state 1) 5 []).completed_batch_indices,
      ¬ i < (update (create_progress_state 1) 5 []).total_batches := by
  refine ⟨5, by simp [update, create_progress_state], by simp [update, create_progress_state]⟩

/-- States reachable from `ProgressTracker.__init__` by any sequence of
`update` calls. -/
inductive Reachable : ProgressState → Prop where
  | created (n : Nat) : Reachable (create_progress_state n)
  | updated (s : ProgressState) (i : Nat) (r : List Json) :
      Reachable s → Reachable (update s i r)

/-- States reachable when every `update` call's batch index is in range, as
the orchestrator's calls are. -/
inductive ReachableInRange : ProgressState → Prop where
  | created (n : Nat) : ReachableInRange (create_progress_state n)
  | updated (s : ProgressState) (i : Nat) (r : List Json) :
      ReachableInRange s → i < s.total_batches → ReachableInRange (update s i r)

theorem update_total_batches (s : ProgressState) (i : Nat) (r : List Json) :
    (update s i r).total_batches = s.total_batches := rfl

/-- Claim C6, amended: every reachable state has duplicate-free completed
indices; the range half of the invariant holds only for update calls whose
index is already in `[0, total_batches)` — `update` itself never checks. -/
theorem progress_invariant_spec :
    (∀ s, Reachable s → s.completed_batch_indices.Nodup)
    ∧ (∀ s, ReachableInRange s →
        s.completed_batch_indices.Nodup
        ∧ ∀ i ∈ s.completed_batch_indices, i < s.total_batches) := by
  constructor
  · intro s h
    induction h with
    | created n => simp [create_progress_state]
    | updated s i r _ ih =>
      by_cases hm : i ∈ s.completed_batch_indices
      · simpa [update, hm] using ih
      · simpa [update, hm, List.concat_eq_append] using List.Nodup.concat hm ih
  · intro s h
    induction h with
    | created n => simp [create_progress_state]
    | updated s i r _ hi ih =>
      refine ⟨?_, ?_⟩
      · by_cases hm : i ∈ s.completed_batch_indices
        · simpa [update, hm] using ih.1
        · simpa [update, hm, List.concat_eq_append] using List.Nodup.concat hm ih.1
      · intro j hj
        rw [update_total_batches]
        by_cases hm : i ∈ s.completed_batch_indices
        · simp [update, hm] at hj
          exact ih.2 j hj
        · simp [update, hm] at hj
          rcases hj with hj | hj
          · exact ih.2 j hj
          · subst hj; exact hi

theorem progress_invariant_spec_witness :
    (update (create_progress_state 2) 0 []).completed_batch_indices.Nodup
    ∧ ∀ i ∈ (update (create_progress_state 2) 0 []).completed_batch_indices,
        i < (update (create_progress_state 2) 0 []).total_batches :=
  progress_invariant_spec.2 (update (create_progress_state 2) 0 [])
    (ReachableInRange.updated (create_progress_state 2) 0 []
      (ReachableInRange.created 2) (by decide))

/-- Claim C9: `get_remaining_batch_indices` returns exactly the indices of
`[0, total_batches)` not yet completed, in strictly ascending order; with
`total_batches = 5` and completed indices `[0, 2]` it returns `[1, 3, 4]`. -/
theorem get_remaining_batch_indices_spec :
    (∀ s : ProgressState,
      (∀ i, i ∈ get_remaining_batch_indices s ↔
          i < s.total_batches ∧ i ∉ s.completed_batch_indices)
      ∧ (get_remaining_batch_indices s).Sorted (· < ·))
    ∧ get_remaining_batch_indices (ProgressState.mk 5 [0, 2] []) = [1, 3, 4] := by
  refine ⟨fun s => ⟨fun i => ?_, ?_⟩, by decide⟩
  · simp [get_remaining_batch_indices, List.mem_filter, List.mem_range]
  · exact (List.sorted_lt_range s.total_batches).filter _

theorem create_batches_nil (bs : Nat) : create_batches bs ([] : List α) = [] := by
  simp [create_batches]

theorem create_batches_cons (bs : Nat) (hb : bs ≠ 0) (x : α) (xs : List α) :
    create_batches bs (x :: xs)
      = (x :: xs).take bs :: create_batches bs ((x :: xs).drop bs) := by
  rw [create_batches]
  simp [hb]

theorem batch_sizes_zero (bs : Nat) : batch_sizes bs 0 = [] := by
  simp [batch_sizes]

theorem batch_sizes_succ (bs : Nat) (hb : bs ≠ 0) (m : Nat) :
    batch_sizes bs (m + 1) = min bs (m + 1) :: batch_sizes bs (m + 1 - bs) := by
  rw [batch_sizes]
  simp [hb]

theorem create_batches_join (bs : Nat) (hb : bs ≠ 0) (l : List α) :
    (create_batches bs l).flatten = l := by
  induction l using create_batches.induct bs with
  | case1 => simp [create_batches]
  | case2 x xs h => exact absurd h hb
  | case3 x xs h ih =>
    rw [create_batches_cons bs h, List.flatten_cons, ih, List.take_append_drop]

theorem create_batches_map_length (bs : Nat) (hb : bs ≠ 0) (l : List α) :
    (create_batches bs l).map List.length = batch_sizes bs l.length := by
  induction l using create_batches.induct bs with
  | case1 => simp [create_batches, batch_sizes]
  | case2 x xs h => exact absurd h hb
  | case3 x xs h ih =>
    rw [create_batches_cons bs h, List.map_cons, ih, List.length_drop, List.length_cons,
      List.length_take, List.length_cons, batch_sizes_succ bs h]

theorem batch_sizes_le (bs m : Nat) : ∀ a ∈ batch_sizes bs m, a ≤ bs := by
  induction m using batch_sizes.induct bs with
  | case1 => simp [batch_sizes]
  | case2 m h => rw [batch_sizes]; simp [h]
  | case3 m h ih =>
    rw [batch_sizes_succ bs h]
    intro a ha
    rcases List.mem_cons.1 ha with ha | ha
    · subst ha; exact Nat.min_le_left _ _
    · exact ih a ha

theorem batch_sizes_dropLast (bs : Nat) (hb : bs ≠ 0) (m : Nat) :
    ∀ a ∈ (batch_sizes bs m).dropLast, a = bs := by
  induction m using batch_sizes.induct bs with
  | case1 => simp [batch_sizes]
  | case2 m h => exact absurd h hb
  | case3 m h ih =>
    rw [batch_sizes_succ bs h]
    cases htail : batch_sizes bs (m + 1 - bs) with
    | nil => simp
    | cons b t =>
      intro a ha
      rcases List.mem_cons.1 ha with ha | ha
      · subst ha
        have hne : m + 1 - bs ≠ 0 := by
          intro h0
          rw [h0, batch_sizes_zero] at htail
          exact List.noConfusion htail
        exact Nat.min_eq_left (by omega)
      · rw [← htail] at ha
        exact ih a ha

theorem batch_sizes_length (bs : Nat) (hb : bs ≠ 0) (m : Nat) :
    (batch_sizes bs m).length = (m + bs - 1) / bs := by
  induction m using batch_sizes.induct bs with
  | case1 =>
    rw [batch_sizes_zero, List.length_nil]
    exact (Nat.div_eq_of_lt (by omega)).symm
  | case2 m h => exact absurd h hb
  | case3 m h ih =>
    rw [batch_sizes_succ bs h, List.length_cons, ih]
    by_cases hle : bs ≤ m + 1
    · have heq : m + 1 + bs - 1 = (m + 1 - bs + bs - 1) + bs := by omega
      rw [heq, Nat.add_div_right _ (by omega)]
    · have h0 : m + 1 - bs = 0 := by omega
      have h2 : m + 1 + bs - 1 = m + bs := by omega
      rw [h0, Nat.div_eq_of_lt (by omega), h2, Nat.add_div_right _ (by omega),
        Nat.div_eq_of_lt (by omega)]

theorem batch_sizes_ten_twentyfive : batch_sizes 10 25 = [10, 10, 5] := by
  rw [show (25 : Nat) = 24 + 1 from rfl, batch_sizes_succ 10 (by omega) 24]
  rw [show (24 + 1 - 10 : Nat) = 14 + 1 from rfl, batch_sizes_succ 10 (by omega) 14]
  rw [show (14 + 1 - 10 : Nat) = 4 + 1 from rfl, batch_sizes_succ 10 (by omega) 4]
  rw [show (4 + 1 - 10 : Nat) = 0 from rfl, batch_sizes_zero]
  decide

/-- Claim C5: `create_batches` splits the input into contiguous groups of at
most `batch_size` items — all full except possibly the last — whose
concatenation restores the input; the group count is
`ceil(length / batch_size)`, the empty list gives zero groups, and 25 items
at `batch_size = 10` give exactly the group sizes `[10, 10, 5]`. -/
theorem create_batches_spec {α : Type} (items : List α) (batch_size : Nat)
    (h : 1 ≤ batch_size) :
    (create_batches batch_size items).flatten = items
    ∧ (∀ b ∈ create_batches batch_size items, b.length ≤ batch_size)
    ∧ (∀ b ∈ (create_batches batch_size items).dropLast, b.length = batch_size)
    ∧ (create_batches batch_size items).length
        = (items.length + batch_size - 1) / batch_size
    ∧ (items = [] → create_batches batch_size items = [])
    ∧ (items.length = 25 → batch_size = 10 →
        (create_batches batch_size items).map List.length = [10, 10, 5]) := by
  have hb : batch_size ≠ 0 := by omega
  refine ⟨create_batches_join batch_size hb items, ?_, ?_, ?_, ?_, ?_⟩
  · intro b hbmem
    have hmem : b.length ∈ (create_batches batch_size items).map List.length :=
      List.mem_map_of_mem _ hbmem
    rw [create_batches_map_length batch_size hb items] at hmem
    exact batch_sizes_le batch_size items.length b.length hmem
  · intro b hbmem
    have hmem : b.length ∈ ((create_batches batch_size items).map List.length).dropLast := by
      rw [← List.map_dropLast]
      exact List.mem_map_of_mem _ hbmem
    rw [create_batches_map_length batch_size hb items] at hmem
    exact batch_sizes_dropLast batch_size hb items.length b.length hmem
  · have hlen := congrArg List.length (create_batches_map_length batch_size hb items)
    rw [List.length_map] at hlen
    rw [hlen, batch_sizes_length batch_size hb items.length]
  · intro hnil
    subst hnil
    exact create_batches_nil batch_size
  · intro h25 h10
    subst h10
    rw [create_batches_map_length 10 hb items, h25, batch_sizes_ten_twentyfive]

theorem create_batches_spec_witness :
    1 ≤ 10
    ∧ ((create_batches 10 (List.range 25)).flatten = List.range 25
      ∧ (∀ b ∈ create_batches 10 (List.range 25), b.length ≤ 10)
      ∧ (∀ b ∈ (create_batches 10 (List.range 25)).dropLast, b.length = 10)
      ∧ (create_batches 10 (List.range 25)).length
          = ((List.range 25).length + 10 - 1) / 10
      ∧ (List.range 25 = ([] : List Nat) → create_batches 10 (List.range 25) = [])
      ∧ ((List.range 25).length = 25 → 10 = 10 →
          (create_batches 10 (List.range 25)).map List.length = [10, 10, 5])) :=
  ⟨by decide, create_batches_spec (List.range 25) 10 (by decide)⟩

theorem retry_loop_succ {α : Type} (op : Nat → Outcome α) (jit : Nat → ℚ) (b : ℚ)
    (remaining attempt : Nat) (delay : ℚ) :
    retry_loop op jit b (remaining + 1) attempt delay
      = match op attempt with
        | Outcome.ok v => RetryTrace.mk (RetryResult.ok v) 1 []
        | Outcome.cancel e => RetryTrace.mk (RetryResult.cancelled e) 1 []
        | Outcome.err e =>
          if remaining = 0 then RetryTrace.mk (RetryResult.raised e) 1 []
          else
            RetryTrace.mk (retry_loop op jit b remaining (attempt + 1) (delay * b)).result
              ((retry_loop op jit b remaining (attempt + 1) (delay * b)).calls + 1)
              ((delay * jit attempt)
                :: (retry_loop op jit b remaining (attempt + 1) (delay * b)).sleeps) := rfl

theorem retry_loop_err {α : Type} (op : Nat → Outcome α) (f : Nat → String)
    (hop : ∀ k, op k = Outcome.err (f k)) (jit : Nat → ℚ) (b : ℚ) :
    ∀ (remaining : Nat), 1 ≤ remaining → ∀ (attempt : Nat) (delay : ℚ),
      (retry_loop op jit b remaining attempt delay).result
          = RetryResult.raised (f (attempt + remaining - 1))
      ∧ (retry_loop op jit b remaining attempt delay).calls = remaining := by
  intro remaining
  induction remaining with
  | zero => intro hr; omega
  | succ n ih =>
    intro _ attempt delay
    cases n with
    | zero =>
      rw [retry_loop_succ, hop attempt]
      simp
    | succ m =>
      have hrec := ih (by omega) (attempt + 1) (delay * b)
      rw [retry_loop_succ, hop attempt]
      dsimp only
      rw [if_neg (show ¬ (m + 1 = 0) by omega)]
      refine ⟨?_, ?_⟩
      · rw [hrec.1]
        congr 2
        omega
      · rw [hrec.2]

theorem retry_loop_ok {α : Type} (op : Nat → Outcome α) (jit : Nat → ℚ) (b : ℚ) :
    ∀ (k : Nat) (remaining attempt : Nat) (delay : ℚ) (v : α), k < remaining →
      op (attempt + k) = Outcome.ok v →
      (∀ j, j < k → ∃ e, op (attempt + j) = Outcome.err e) →
      (retry_loop op jit b remaining attempt delay).result = RetryResult.ok v
      ∧ (retry_loop op jit b remaining attempt delay).calls = k + 1 := by
  intro k
  induction k with
  | zero =>
    intro remaining attempt delay v hk hok _
    cases remaining with
    | zero => omega
    | succ r =>
      rw [retry_loop_succ, show op attempt = Outcome.ok v from by simpa using hok]
      exact ⟨rfl, rfl⟩
  | succ n ih =>
    intro remaining attempt delay v hk hok herr
    cases remaining with
    | zero => omega
    | succ r =>
      obtain ⟨e, he⟩ := herr 0 (by omega)
      have hr : r ≠ 0 := by omega
      rw [retry_loop_succ, show op attempt = Outcome.err e from by simpa using he]
      dsimp only
      rw [if_neg hr]
      have hrec := ih r (attempt + 1) (delay * b) v (by omega)
        (by rw [← hok]; congr 1; omega)
        (fun j hj => by
          have hje := herr (j + 1) (by omega)
          rwa [show attempt + (j + 1) = attempt + 1 + j from by omega] at hje)
      refine ⟨hrec.1, ?_⟩
      rw [hrec.2]

theorem retry_loop_cancel_aux {α : Type} (op : Nat → Outcome α) (jit : Nat → ℚ) (b : ℚ) :
    ∀ (k : Nat) (remaining attempt : Nat) (delay : ℚ) (e : String), k < remaining →
      op (attempt + k) = Outcome.cancel e →
      (∀ j, j < k → ∃ s, op (attempt + j) = Outcome.err s) →
      (retry_loop op jit b remaining attempt delay).result = RetryResult.cancelled e
      ∧ (retry_loop op jit b remaining attempt delay).calls = k + 1
      ∧ (retry_loop op jit b remaining attempt delay).sleeps.length = k := by
  intro k
  induction k with
  | zero =>
    intro remaining attempt delay e hk hcan _
    cases remaining with
    | zero => omega
    | succ r =>
      rw [retry_loop_succ, show op attempt = Outcome.cancel e from by simpa using hcan]
      exact ⟨rfl, rfl, rfl⟩
  | succ n ih =>
    intro remaining attempt delay e hk hcan herr
    cases remaining with
    | zero => omega
    | succ r =>
      obtain ⟨s, hs⟩ := herr 0 (by omega)
      have hr : r ≠ 0 := by omega
      rw [retry_loop_succ, show op attempt = Outcome.err s from by simpa using hs]
      dsimp only
      rw [if_neg hr]
      have hrec := ih r (attempt + 1) (delay * b) e (by omega)
        (by rw [← hcan]; congr 1; omega)
        (fun j hj => by
          have hje := herr (j + 1) (by omega)
          rwa [show attempt + (j + 1) = attempt + 1 + j from by omega] at hje)
      refine ⟨hrec.1, ?_, ?_⟩
      · rw [hrec.2.1]
      · rw [List.length_cons, hrec.2.2]

/-- Claim C4: if the wrapped operation fails retryably on every attempt and
`max_retries ≥ 1`, `retry_with_backoff` invokes it exactly `max_retries`
times and re-raises the failure of the last attempt; if some attempt
succeeds (after only retryable failures), its value is returned with no
further invocation. -/
theorem retry_failure_success_spec {α : Type} (op : Nat → Outcome α) (f : Nat → String)
    (jit : Nat → ℚ) (m : Nat) (d b : ℚ) (hm : 1 ≤ m) :
    ((∀ k, op k = Outcome.err (f k)) →
      (retry_with_backoff op jit m d b).result = RetryResult.raised (f (m - 1))
      ∧ (retry_with_backoff op jit m d b).calls = m)
    ∧ (∀ k v, k < m → op k = Outcome.ok v →
        (∀ j, j < k → ∃ e, op j = Outcome.err e) →
        (retry_with_backoff op jit m d b).result = RetryResult.ok v
        ∧ (retry_with_backoff op jit m d b).calls = k + 1) := by
  constructor
  · intro hop
    have h := retry_loop_err op f hop jit b m hm 0 d
    rwa [Nat.zero_add] at h
  · intro k v hk hok herr
    exact retry_loop_ok op jit b k m 0 d v hk (by simpa using hok)
      (fun j hj => by simpa using herr j hj)

theorem retry_failure_success_spec_witness :
    1 ≤ 2
    ∧ (retry_with_backoff (α := Nat) (fun _ => Outcome.err "boom") (fun _ => 1) 2 1 2).result
        = RetryResult.raised "boom"
    ∧ (retry_with_backoff (α := Nat) (fun _ => Outcome.err "boom") (fun _ => 1) 2 1 2).calls
        = 2 :=
  ⟨by decide,
    (retry_failure_success_spec (fun _ => Outcome.err "boom") (fun _ => "boom")
      (fun _ => 1) 2 1 2 (by decide)).1 (fun _ => rfl)⟩

/-- Claim C7: a cancellation signal (`KeyboardInterrupt` / `SystemExit`)
raised on attempt `k` propagates immediately: the operation is invoked
exactly `k + 1` times, the result is the unwrapped signal, and only the `k`
backoff sleeps of the earlier retryable failures ever happen — none after
the signal, however many attempts remain. -/
theorem retry_cancel_spec {α : Type} (op : Nat → Outcome α) (jit : Nat → ℚ) (m : Nat)
    (d b : ℚ) (k : Nat) (e : String) (hk : k < m) (hc : op k = Outcome.cancel e)
    (he : ∀ j, j < k → ∃ s, op j = Outcome.err s) :
    (retry_with_backoff op jit m d b).result = RetryResult.cancelled e
    ∧ (retry_with_backoff op jit m d b).calls = k + 1
    ∧ (retry_with_backoff op jit m d b).sleeps.length = k :=
  retry_loop_cancel_aux op jit b k m 0 d e hk (by simpa using hc)
    (fun j hj => by simpa using he j hj)

theorem retry_cancel_spec_witness :
    1 < 3
    ∧ (retry_with_backoff (α := Nat)
        (fun n => if n = 0 then Outcome.err "tmo" else Outcome.cancel "interrupt")
        (fun _ => 1) 3 1 2).result = RetryResult.cancelled "interrupt"
    ∧ (retry_with_backoff (α := Nat)
        (fun n => if n = 0 then Outcome.err "tmo" else Outcome.cancel "interrupt")
        (fun _ => 1) 3 1 2).calls = 1 + 1
    ∧ (retry_with_backoff (α := Nat)
        (fun n => if n = 0 then Outcome.err "tmo" else Outcome.cancel "interrupt")
        (fun _ => 1) 3 1 2).sleeps.length = 1 :=
  ⟨by decide,
    retry_cancel_spec (fun n => if n = 0 then Outcome.err "tmo" else Outcome.cancel "interrupt")
      (fun _ => 1) 3 1 2 1 "interrupt" (by decide) rfl
      (fun j hj => ⟨"tmo", by
        have hj0 : j = 0 := by omega
        subst hj0
        rfl⟩)⟩

end ClaudeLint
